import Mathlib

/-!
# Verification of the powercmd command-interpretation pipeline

Shallow embedding of the powercmd library (tokenizer, matcher cascade,
argument binder, value codec, completion engine) together with theorems
settling the specification claims about it.

Source files embedded:
* `powercmd.py` — `TextMatchStrategy`, `match_string` (the Matcher cascade);
* `powercmd/split_list.py` — `split_list`;
* `powercmd/command_line.py` — `CommandLine`, `assign_args`, `_assign_free_args`,
  `has_trailing_whitespace`;
* `powercmd/cmd.py` — `Cmd.get_constructor`, `Cmd._construct_args`,
  `Cmd._assign_free_args`, `Cmd._fill_default_args`,
  `CmdCompleter._complete_generic_tuple`, `CmdCompleter._complete_value`;
* `powercmd/completer.py` — `Completer._complete_params`,
  `Completer._complete_generic_tuple`, `Completer._complete_value`,
  `Completer.get_completions`.

Python dictionaries are embedded as insertion-ordered association lists,
Python exceptions as an `Except` error monad, and Python strings as `String`
(comparison on strings is code-point lexicographic in both).
-/

namespace Powercmd

/-! ## Python string primitives -/

/-- Longest common prefix of two character lists
(`os.path.commonprefix` restricted to two strings). -/
def commonPrefixList : List Char → List Char → List Char
  | a :: as, b :: bs => if a = b then a :: commonPrefixList as bs else []
  | _, _ => []

/-- `os.path.commonprefix([a, b])`. -/
def commonPrefix (a b : String) : String :=
  String.mk (commonPrefixList a.toList b.toList)

/-- Python `full.startswith(prefix)`. -/
def pyStartswith (s pre : String) : Bool :=
  pre.toList.isPrefixOf s.toList

/-- Python `a.endswith(b)`. -/
def pyEndswith (s suf : String) : Bool :=
  suf.toList.isSuffixOf s.toList

/-- Python `s[n:]` (drop the first `n` characters). -/
def pyDrop (s : String) (n : Nat) : String :=
  String.mk (s.toList.drop n)

/-- Python `s.split(sep)` on character lists: split at every occurrence of
`sep`, keeping empty pieces (`"a__b".split("_") == ["a", "", "b"]`). -/
def splitCharList (sep : Char) : List Char → List (List Char)
  | [] => [[]]
  | c :: cs =>
    match splitCharList sep cs with
    | [] => [[c]]
    | r :: rs => if c = sep then [] :: r :: rs else (c :: r) :: rs

/-- Python `s.split(sep)` for a single-character separator. -/
def pySplit (s : String) (sep : Char) : List String :=
  (splitCharList sep s.toList).map String.mk

/-- Python string comparison (`<=`) on character lists: code-point
lexicographic order. -/
def pyLeChars : List Char → List Char → Bool
  | [], _ => true
  | _ :: _, [] => false
  | a :: as, b :: bs => if a = b then pyLeChars as bs else decide (a < b)

/-- Python string comparison `a <= b`: code-point lexicographic order. -/
def pyLe (a b : String) : Bool :=
  pyLeChars a.toList b.toList

/-- Python `sorted` on strings: sort in code-point lexicographic order,
embedded as insertion sort over `pyLe`. -/
def pySorted (l : List String) : List String :=
  l.insertionSort (fun a b => pyLe a b = true)

/-- Python `s.isspace()`: nonempty and all whitespace. -/
def pyIsSpace (s : String) : Bool :=
  !s.toList.isEmpty && s.toList.all Char.isWhitespace

/-! ## `powercmd.py`: `TextMatchStrategy` and `match_string` (the Matcher) -/

/-- `TextMatchStrategy._matches_words` from `powercmd.py`, with explicit fuel.

The Python function recurses with `words[1:]`, so the recursion depth is
bounded by `len(words)`; every entry point passes fuel `words.length + 1`,
which therefore never runs out.  The `for word in words` loop with its three
early exits (`return False` on an empty common prefix, `return True` when the
common prefix is the whole text or some shorter prefix lets the rest of the
text match `words[1:]`) is embedded as a fold over an `Option Bool`
short-circuit accumulator. -/
def matchesWordsFuel : Nat → String → List String → Bool
  | 0, _, _ => false
  | fuel + 1, text, words =>
    if text.toList.isEmpty then true
    else
      (words.foldl
        (fun acc word =>
          match acc with
          | some b => some b
          | none =>
            let cp := commonPrefix text word
            if cp.toList.isEmpty then some false
            else if cp = text then some true
            else if (List.range cp.toList.length).any
                (fun i => matchesWordsFuel fuel (pyDrop text (i + 1)) words.tail) then
              some true
            else none)
        none).getD false

/-- `TextMatchStrategy._matches_words(text, words)`. -/
def matchesWords (text : String) (words : List String) : Bool :=
  matchesWordsFuel (words.length + 1) text words

/-- `TextMatchStrategy.snake_case_matches(short, full)`:
match against the `_`-separated words of `full`. -/
def snakeCaseMatches (short full : String) : Bool :=
  matchesWords short (pySplit full '_')

/-- Inner loop of `TextMatchStrategy.fuzzy_matches`: walk the characters of
`full`, advancing an index into `short` on every hit; report success as soon
as the index reaches `len(short)`.  When `short` is empty the Python code
raises `IndexError` on the first character of `full`; that point is embedded
as `false` and is unreachable from `matchString` (an empty query is always
caught by the prefix strategy first). -/
def fuzzyMatchesAux (shortL : List Char) : List Char → Nat → Bool
  | [], _ => false
  | c :: cs, i =>
    match shortL.get? i with
    | none => false
    | some sc =>
      if c = sc then
        if i + 1 = shortL.length then true else fuzzyMatchesAux shortL cs (i + 1)
      else fuzzyMatchesAux shortL cs i

/-- `TextMatchStrategy.fuzzy_matches(short, full)`. -/
def fuzzyMatches (short full : String) : Bool :=
  fuzzyMatchesAux short.toList full.toList 0

/-- `TextMatchStrategy.Exact`: `lambda a, b: a == b`. -/
def exactStrategy (text candidate : String) : Bool :=
  text == candidate

/-- `TextMatchStrategy.Prefix`: `lambda short, full: full.startswith(short)`. -/
def prefixStrategy (short full : String) : Bool :=
  pyStartswith full short

/-- `_match_string(text, possible, match_strategies, quiet)` from
`powercmd.py`: try each named strategy in order and return the
alphabetically sorted matches of the first strategy that yields at least
one match (the `print` of the successful strategy's name is a side effect
with no bearing on the result and is not modelled). -/
def matchStringAux : List (String × (String → String → Bool)) → String → List String → List String
  | [], _, _ => []
  | (_, m) :: rest, text, possible =>
    let found := pySorted (possible.filter (fun e => m text e))
    if found.isEmpty then matchStringAux rest text possible else found

/-- The fixed strategy cascade of `match_string`:
exact, prefix, snake case, fuzzy. -/
def matchStrategies : List (String × (String → String → Bool)) :=
  [("exact", exactStrategy),
   ("prefix", prefixStrategy),
   ("snake case", snakeCaseMatches),
   ("fuzzy", fuzzyMatches)]

/-- `match_string(text, possible)` from `powercmd.py`. -/
def matchString (text : String) (possible : List String) : List String :=
  matchStringAux matchStrategies text possible

example : matchString "gval" ["get_value", "get_total"] = ["get_value"] := by decide

example : matchString "gv" ["get_total_value_of_foo"] = ["get_total_value_of_foo"] := by
  decide

/-! ## Errors

One constructor per `raise` site of the embedded code.  Python exception
classes map as follows: `ValueError` → `valueError` / `unmatchedDelimiters` /
`multipleValuesForKey`, `powercmd.exceptions.InvalidInput` →
`invalidInputTooMany` / `invalidInputAlreadyPresent`, `Cmd.SyntaxError` →
`syntaxTooMany` / `syntaxAlreadyPresent` / `syntaxDuplicateValue` /
`syntaxInvalidValue`, `TypeError` → `typeError`, `IndexError` → `indexError`,
`KeyError` → `keyError`. -/

/-- Structured embedding of the Python exceptions raised by the embedded
code; payloads carry the data interpolated into the exception messages. -/
inductive PyErr where
  | valueError (msg : String)
  | unmatchedDelimiters (stack : List Char)
  | unterminatedQuote
  | multipleValuesForKey (name : String)
  | invalidInputTooMany (max : Nat)
  | invalidInputAlreadyPresent (name : String)
  | syntaxTooMany (max : Nat)
  | syntaxAlreadyPresent (name : String)
  | syntaxDuplicateValue (name : String)
  | syntaxInvalidValue (msg : String)
  | typeError (msg : String)
  | indexError
  | keyError (name : String)
  deriving DecidableEq, Repr

instance {ε α : Type} [DecidableEq ε] [DecidableEq α] : DecidableEq (Except ε α) := fun a b =>
  match a, b with
  | .error e, .error f =>
    if h : e = f then isTrue (by rw [h]) else isFalse (fun he => h (by injection he))
  | .ok x, .ok y =>
    if h : x = y then isTrue (by rw [h]) else isFalse (fun he => h (by injection he))
  | .error _, .ok _ => isFalse (fun he => Except.noConfusion he)
  | .ok _, .error _ => isFalse (fun he => Except.noConfusion he)

/-! ## `powercmd/split_list.py` -/

/-- The `_DELIMITERS` table of `split_list.py`: each opening delimiter maps to
its expected closing character. -/
def delimiterClose : Char → Option Char
  | '(' => some ')'
  | '[' => some ']'
  | '\x7b' => some '\x7d'
  | '"' => some '"'
  | '\'' => some '\''
  | _ => none

/-- One scanning step of `split_list`: the state is the delimiter stack, the
characters of the chunk being built (Python tracks the slice `text[start:idx]`
instead) and the chunks already yielded.  When the stack is nonempty only the
matching closer pops it (the `elif` chain means no further delimiter is pushed
inside an open one); when it is empty an opening delimiter pushes its closer
and the separator finishes a chunk. -/
def splitListStep (sep : Char) (st : List Char × List Char × List String) (c : Char) :
    List Char × List Char × List String :=
  let (stack, cur, acc) := st
  match stack with
  | top :: rest =>
    if c = top then (rest, cur ++ [c], acc) else (stack, cur ++ [c], acc)
  | [] =>
    match delimiterClose c with
    | some close => ([close], cur ++ [c], acc)
    | none =>
      if c = sep then ([], [], acc ++ [String.mk cur])
      else ([], cur ++ [c], acc)

/-- `split_list(text, separator, allow_unmatched)` from `split_list.py`, with
the generator run to completion (every call site wraps it in `list(...)` or
iterates it fully).  The single-character-separator validation is enforced by
the `Char` type; a separator that is itself a delimiter is rejected exactly as
in the source. -/
def splitList (text : String) (sep : Char := ',') (allowUnmatched : Bool := false) :
    Except PyErr (List String) :=
  if (delimiterClose sep).isSome then
    .error (.valueError "delimiters are not supported")
  else
    let (stack, cur, acc) := text.toList.foldl (splitListStep sep) ([], [], [])
    if !allowUnmatched && !stack.isEmpty then
      .error (.unmatchedDelimiters stack)
    else
      .ok (acc ++ [String.mk cur])

example : splitList "3,42" = .ok ["3", "42"] := by decide

example : splitList "(1,a),(2,b)" = .ok ["(1,a)", "(2,b)"] := by decide

example : splitList "\"a,b\",c" = .ok ["\"a,b\"", "c"] := by decide

/-! ## Tokenization of a raw command line

`command_line.py` imports `split_cmdline` and `drop_enclosing_quotes` from
`powercmd/split_list.py`, but the source tree's `split_list.py` does not
contain them; they are modelled from the spec below. -/

/-- Scanner for `splitCmdline`: state is the remaining characters, the open
quote character (if any), the characters of the word being built (quote
characters are kept: `CommandLine.quoted_words` retains them) and the words
already produced. -/
def splitCmdlineAux (allowUnmatched : Bool) :
    List Char → Option Char → List Char → List String → Except PyErr (List String)
  | [], none, cur, acc =>
    .ok (acc ++ if cur.isEmpty then [] else [String.mk cur])
  | [], some _, cur, acc =>
    if allowUnmatched then .ok (acc ++ [String.mk cur])
    else .error .unterminatedQuote
  | c :: cs, some q, cur, acc =>
    if c = q then splitCmdlineAux allowUnmatched cs none (cur ++ [c]) acc
    else splitCmdlineAux allowUnmatched cs (some q) (cur ++ [c]) acc
  | c :: cs, none, cur, acc =>
    if c.isWhitespace then
      splitCmdlineAux allowUnmatched cs none []
        (acc ++ if cur.isEmpty then [] else [String.mk cur])
    else if c = '"' ∨ c = '\'' then
      splitCmdlineAux allowUnmatched cs (some c) (cur ++ [c]) acc
    else
      splitCmdlineAux allowUnmatched cs none (cur ++ [c]) acc

/-- Modelled from the spec: `split_cmdline(text, allow_unmatched)` is imported
by `command_line.py` but missing from the source tree's `split_list.py`.
§4.1: split the raw line on whitespace outside of matching `'`/`"` quotes,
keeping the quote characters in the extracted words; following `split_list`'s
convention in the same module, an unterminated quote is an error only when
`allow_unmatched` is false.  The behaviour on the quoting test vectors of
`test_command_line.py` is proved below. -/
def splitCmdline (text : String) (allowUnmatched : Bool) : Except PyErr (List String) :=
  splitCmdlineAux allowUnmatched text.toList none [] []

/-- Modelled from the spec: `drop_enclosing_quotes(word)` is imported by
`command_line.py` but missing from the source tree's `split_list.py`.  §4.1: a
word fully enclosed by one quote type has its quotes stripped; a word only
partially quoted keeps its quotes literally. -/
def dropEnclosingQuotes (w : String) : String :=
  match w.toList with
  | c :: rest@(_ :: _) =>
    if (c = '"' ∨ c = '\'') ∧ rest.getLast? = some c then String.mk rest.dropLast
    else w
  | _ => w

example : (splitCmdline "" true).map (List.map dropEnclosingQuotes) = .ok [] := by decide

example : (splitCmdline "a \t\nb" true).map (List.map dropEnclosingQuotes) = .ok ["a", "b"] := by
  decide

example : (splitCmdline " a " true).map (List.map dropEnclosingQuotes) = .ok ["a"] := by decide

example : (splitCmdline "\"a b\"" true).map (List.map dropEnclosingQuotes) = .ok ["a b"] := by
  decide

example : (splitCmdline "a\" \"b" true).map (List.map dropEnclosingQuotes) = .ok ["a\" \"b"] := by
  decide

example : (splitCmdline "a\" b\"" true).map (List.map dropEnclosingQuotes) = .ok ["a\" b\""] := by
  decide

example : (splitCmdline "\"a \"b" true).map (List.map dropEnclosingQuotes) = .ok ["\"a \"b"] := by
  decide

/-! ## `powercmd/command_line.py`: `CommandLine` -/

/-- A post-command word of the line: `NamedArg(name, value)` or
`PositionalArg(value)` from `command_line.py`. -/
inductive Arg where
  | named (name value : String)
  | positional (value : String)
  deriving DecidableEq, Repr

/-- Keys of the named arguments among `args` (the `named_args` property's key
set, in insertion order). -/
def namedKeys (args : List Arg) : List String :=
  args.filterMap fun a =>
    match a with
    | .named n _ => some n
    | .positional _ => none

/-- Word classification of `CommandLine.__init__`: a word matching
`^[a-zA-Z0-9_]+=` is split at its first `=` into a named argument, everything
else is positional. -/
def classifyWord (w : String) : Arg :=
  let wc := w.toList.takeWhile fun c => c.isAlphanum || c = '_'
  if !wc.isEmpty && w.toList.get? wc.length = some '=' then
    .named (String.mk wc) (String.mk (w.toList.drop (wc.length + 1)))
  else
    .positional w

/-- The argument-building loop of `CommandLine.__init__`: classify each
post-command word, failing on a named key seen before. -/
def buildArgs : List String → List Arg → Except PyErr (List Arg)
  | [], acc => .ok acc
  | w :: ws, acc =>
    match classifyWord w with
    | .named n v =>
      if (namedKeys acc).contains n then .error (.multipleValuesForKey n)
      else buildArgs ws (acc ++ [.named n v])
    | .positional v => buildArgs ws (acc ++ [.positional v])

/-- Partially parsed command line (`CommandLine` from `command_line.py`). -/
structure CommandLine where
  rawText : String
  quotedWords : List String
  command : String
  args : List Arg
  deriving DecidableEq, Repr

/-- `CommandLine.__init__(cmdline)`: tokenize with unmatched quotes allowed,
strip enclosing quotes, take the first word as the command and classify the
rest. -/
def commandLine (cmdline : String) : Except PyErr CommandLine :=
  match splitCmdline cmdline true with
  | .error e => .error e
  | .ok quotedWords =>
    let words := quotedWords.map dropEnclosingQuotes
    match buildArgs words.tail [] with
    | .error e => .error e
    | .ok args => .ok ⟨cmdline, quotedWords, words.headD "", args⟩

/-- The `named_args` property: name/value pairs of the named arguments, in
order. -/
def CommandLine.namedArgs (cl : CommandLine) : List (String × String) :=
  cl.args.filterMap fun a =>
    match a with
    | .named n v => some (n, v)
    | .positional _ => none

/-- The `free_args` property: values of the positional arguments, in order. -/
def CommandLine.freeArgs (cl : CommandLine) : List String :=
  cl.args.filterMap fun a =>
    match a with
    | .named _ _ => none
    | .positional v => some v

/-- The `has_trailing_whitespace` property: `False` on empty raw text, `True`
on all-whitespace raw text, otherwise true iff the raw text does not end with
the last quoted word.  The source asserts `len(self.quoted_words) > 0` before
indexing `[-1]`; that assertion is proved below for every constructed
`CommandLine` reaching this branch, so the `getLastD` default is never
used. -/
def CommandLine.hasTrailingWhitespace (cl : CommandLine) : Bool :=
  if cl.rawText.toList.isEmpty then false
  else if pyIsSpace cl.rawText then true
  else !pyEndswith cl.rawText (cl.quotedWords.getLastD "")

/-! ## `CommandLine.assign_args` (the string-level binder of `command_line.py`) -/

/-- A slot of the `assigned_args` ordered dict of `assign_args`: `MISSING_ARG`,
a string value popped by `pop_arg`, or the raw `NamedArg`/`PositionalArg`
object stored by `_assign_free_args` (Python stores the namedtuple itself
there, not its value). -/
inductive ClVal where
  | missing
  | str (s : String)
  | arg (a : Arg)
  deriving DecidableEq, Repr

/-- First loop of `pop_arg`: pop the first `NamedArg` whose name equals the
parameter name, returning its value and the remaining argument list. -/
def popNamed (name : String) : List Arg → Option (String × List Arg)
  | [] => none
  | a :: rest =>
    match a with
    | .named n v =>
      if n = name then some (v, rest)
      else (popNamed name rest).map fun (x, l) => (x, a :: l)
    | .positional _ => (popNamed name rest).map fun (x, l) => (x, a :: l)

/-- Second loop of `pop_arg`: pop the first argument that is either an
unrecognized `NamedArg` (name not among the command's parameters — Python
prints an `unrecognized argument` warning) or a `PositionalArg`. -/
def popFree (paramNames : List String) : List Arg → Option (String × List Arg)
  | [] => none
  | a :: rest =>
    match a with
    | .named n v =>
      if paramNames.contains n then (popFree paramNames rest).map fun (x, l) => (x, a :: l)
      else some (v, rest)
    | .positional v => some (v, rest)

/-- `pop_arg(name)` from `CommandLine.assign_args`. -/
def popArg (paramNames : List String) (name : String) (args : List Arg) :
    Option (String × List Arg) :=
  match popNamed name args with
  | some r => some r
  | none => popFree paramNames args

/-- The main loop of `assign_args`: walk the declared parameter names in
order, popping an argument for each; unmatched parameters get `MISSING_ARG`.
Returns the assignment together with the leftover arguments. -/
def assignArgsLoop (paramNames : List String) :
    List String → List Arg → List (String × ClVal) → List (String × ClVal) × List Arg
  | [], args, acc => (acc, args)
  | p :: ps, args, acc =>
    match popArg paramNames p args with
    | some (v, args') => assignArgsLoop paramNames ps args' (acc ++ [(p, .str v)])
    | none => assignArgsLoop paramNames ps args (acc ++ [(p, .missing)])

/-- Ordered-dict assignment `d[k] = v`: replace the value at the first
occurrence of the key, appending when the key is absent. -/
def setAssoc {β : Type} : List (String × β) → String → β → List (String × β)
  | [], k, v => [(k, v)]
  | (k', v') :: rest, k, v =>
    if k' = k then (k', v) :: rest else (k', v') :: setAssoc rest k v

/-- The `zip(cmd.parameters, free)` loop of `CommandLine._assign_free_args`:
a parameter whose slot is not `MISSING_ARG` raises the
`cannot assign free argument ... argument already present` `InvalidInput`;
otherwise the raw argument object is stored.  A parameter name absent from
the dict would be a Python `KeyError` (unreachable from `assign_args`, which
fills every name). -/
def clAssignFreeLoop : List (String × Arg) → List (String × ClVal) →
    Except PyErr (List (String × ClVal))
  | [], res => .ok res
  | (name, a) :: rest, res =>
    match res.lookup name with
    | some .missing => clAssignFreeLoop rest (setAssoc res name (.arg a))
    | some _ => .error (.invalidInputAlreadyPresent name)
    | none => .error (.keyError name)

/-- `CommandLine._assign_free_args(cmd, actual, free)`: fail when there are
more leftover values than declared parameters, otherwise assign them to the
parameters in declaration order. -/
def CommandLine.assignFreeArgs (paramNames : List String) (actual : List (String × ClVal))
    (free : List Arg) : Except PyErr (List (String × ClVal)) :=
  if free.length > paramNames.length then
    .error (.invalidInputTooMany paramNames.length)
  else
    clAssignFreeLoop (paramNames.zip free) actual

/-- `CommandLine.assign_args(cmd)`: pop an argument for every declared
parameter in order, then hand the leftovers to `_assign_free_args`.  Takes
the command's ordered parameter names (`cmd.parameters` is used only through
iteration, membership and `len`). -/
def CommandLine.assignArgs (cl : CommandLine) (paramNames : List String) :
    Except PyErr (List (String × ClVal)) :=
  let (assigned, leftover) := assignArgsLoop paramNames paramNames cl.args []
  CommandLine.assignFreeArgs paramNames assigned leftover

/-! ## `powercmd/cmd.py`: type descriptors and value construction -/

/-- The type annotations handled by `Cmd.get_constructor`, restricted to the
closed set exercised by the embedded code paths: `str`, `int`, `bool`, an
`enum.Enum` subclass (name and member-name → `str(value)` table, in
declaration order), `typing.List[inner]` and `typing.Tuple[inners...]`.
(`bytes`, `float` and `powercmd_parse` custom types play no role in any
claim and are omitted.) -/
inductive Ty where
  | str
  | int
  | bool
  | enum (name : String) (members : List (String × String))
  | list (inner : Ty)
  | tuple (inners : List Ty)

mutual

/-- Nesting depth of a type descriptor, used as recursion fuel below (the
spec's invariant that `List`/`Tuple` descriptors recurse without cycles makes
it finite). -/
def Ty.depth : Ty → Nat
  | .str | .int | .bool | .enum _ _ => 1
  | .list inner => Ty.depth inner + 1
  | .tuple inners => Ty.depthList inners + 1

/-- Maximal nesting depth of a list of type descriptors. -/
def Ty.depthList : List Ty → Nat
  | [] => 0
  | t :: ts => max (Ty.depth t) (Ty.depthList ts)

end

/-- Abbreviated rendering of Python's `str(type)` / `str(annotation)`, used
only as completion display metadata. -/
def Ty.displayName : Ty → String
  | .str => "<class 'str'>"
  | .int => "<class 'int'>"
  | .bool => "<class 'bool'>"
  | .enum n _ => "<enum '" ++ n ++ "'>"
  | .list _ => "typing.List"
  | .tuple _ => "typing.Tuple"

/-- Decoded argument values: results of the constructors returned by
`Cmd.get_constructor`. -/
inductive Value where
  | str (s : String)
  | int (i : Int)
  | bool (b : Bool)
  | enumMember (name val : String)
  | list (elems : List Value)
  | tuple (elems : List Value)

/-- Python `int(text)`: optional surrounding whitespace, optional sign, at
least one ASCII digit; anything else raises `ValueError`.  (Underscore digit
grouping and non-ASCII digits are not modelled.) -/
def pyInt (s : String) : Except PyErr Int :=
  let t := (s.toList.dropWhile Char.isWhitespace).reverse.dropWhile Char.isWhitespace |>.reverse
  let digits : List Char → Except PyErr Nat := fun ds =>
    if !ds.isEmpty && ds.all Char.isDigit then
      .ok (ds.foldl (fun acc d => acc * 10 + (d.toNat - '0'.toNat)) 0)
    else
      .error (.valueError ("invalid literal for int() with base 10: " ++ s))
  match t with
  | '-' :: ds => (digits ds).map fun n => -(n : Int)
  | '+' :: ds => (digits ds).map fun n => (n : Int)
  | ds => (digits ds).map fun n => (n : Int)

example : pyInt "42" = .ok 42 := by decide

example : pyInt " -7 " = .ok (-7) := by decide

example : (pyInt "x").isOk = false := by decide

/-- The constructor dispatch of `Cmd.get_constructor` applied to a value, with
explicit recursion fuel (the Python recursion is over the structure of the
type annotation; every entry point passes `Ty.depth ty + 1`, which strictly
exceeds the nesting depth, so the fuel never runs out):
* `list inner`: `construct_list` — strip one enclosing `[` `]` pair
  (`IndexError` on the empty string, as `text[0]` raises), `split_list` on
  `,` with unmatched delimiters a hard error, decode each piece with `inner`;
* `tuple inners`: `construct_tuple` — strip one enclosing `(` `)` pair, split,
  `TypeError` on an arity mismatch, decode positionally;
* `enum`: member lookup (`annotation.__getitem__`), `KeyError` when absent;
* `bool`: `value not in ('', '0', 'false', 'False')`;
* `str`: the `str` constructor itself. -/
def constructValue : Nat → Ty → String → Except PyErr Value
  | 0, _, _ => .error (.valueError "recursion fuel exhausted")
  | fuel + 1, ty, text =>
    match ty with
    | .str => .ok (.str text)
    | .int => (pyInt text).map .int
    | .bool => .ok (.bool (!(["", "0", "false", "False"].contains text)))
    | .enum _ ms =>
      match ms.lookup text with
      | some v => .ok (.enumMember text v)
      | none => .error (.keyError text)
    | .list inner =>
      match text.toList with
      | [] => .error .indexError
      | chars => do
        let stripped :=
          if chars.head? = some '[' ∧ chars.getLast? = some ']' then
            (chars.drop 1).dropLast
          else chars
        let pieces ← splitList (String.mk stripped) ','
        let vals ← pieces.mapM (constructValue fuel inner)
        return .list vals
    | .tuple ts =>
      match text.toList with
      | [] => .error .indexError
      | chars => do
        let stripped :=
          if chars.head? = some '(' ∧ chars.getLast? = some ')' then
            (chars.drop 1).dropLast
          else chars
        let pieces ← splitList (String.mk stripped) ','
        if pieces.length ≠ ts.length then .error (.typeError "mismatched lengths")
        else do
          let vals ← (ts.zip pieces).mapM fun (t, txt) => constructValue fuel t txt
          return .tuple vals

/-- `Cmd._construct_arg(formal_param, value)`: run the constructor, turning a
`ValueError` into `Cmd.SyntaxError` (other exception types — `TypeError`,
`KeyError` — propagate unchanged, exactly as the `except ValueError` clause
does). -/
def constructArg (ty : Ty) (value : String) : Except PyErr Value :=
  match constructValue (Ty.depth ty + 1) ty value with
  | .ok v => .ok v
  | .error (.valueError msg) => .error (.syntaxInvalidValue msg)
  | .error e => .error e

example : constructArg (.list .int) "[3,42]" = .ok (.list [.int 3, .int 42]) := rfl

example : constructArg (.tuple [.int, .str]) "(1,foo)" = .ok (.tuple [.int 1, .str "foo"]) := rfl

/-! ## `Cmd._construct_args` (the typed binder of `cmd.py`) -/

/-- A declared parameter of a command (`powercmd/command.py`'s
`Parameter(name, type, default)`; `default = none` is
`inspect.Parameter.empty`, i.e. a required parameter). -/
structure Parameter where
  name : String
  ty : Ty
  default : Option Value

/-- Lookup in the ordered formal-parameter mapping (`formal[name]`). -/
def lookupFormal (formal : List Parameter) (name : String) : Option Parameter :=
  formal.find? fun p => p.name == name

/-- The `zip(formal, free)` loop of `Cmd._assign_free_args`: free values are
paired with the declared parameters in declaration order starting from the
first; a parameter already present in the result dict raises the
`cannot assign free argument ... argument already present` `Cmd.SyntaxError`,
otherwise the value is decoded with the parameter's own constructor. -/
def cmdAssignFreeLoop : List (Parameter × String) → List (String × Value) →
    Except PyErr (List (String × Value))
  | [], res => .ok res
  | (p, value) :: rest, res =>
    if (res.lookup p.name).isSome then .error (.syntaxAlreadyPresent p.name)
    else do
      let v ← constructArg p.ty value
      cmdAssignFreeLoop rest (res ++ [(p.name, v)])

/-- `Cmd._assign_free_args(formal, actual, free)`: fail with the
`too many free arguments: expected at most N` `Cmd.SyntaxError` when there
are more free values than declared parameters, before any decoding. -/
def Cmd.assignFreeArgs (formal : List Parameter) (actual : List (String × Value))
    (free : List String) : Except PyErr (List (String × Value)) :=
  if free.length > formal.length then
    .error (.syntaxTooMany formal.length)
  else
    cmdAssignFreeLoop (formal.zip free) actual

/-- `Cmd._fill_default_args(formal, actual)`: extend the result with the
declared defaults of still-unassigned parameters. -/
def Cmd.fillDefaultArgs (formal : List Parameter) (actual : List (String × Value)) :
    List (String × Value) :=
  formal.foldl
    (fun res p =>
      if (res.lookup p.name).isNone then
        match p.default with
        | some d => res ++ [(p.name, d)]
        | none => res
      else res)
    actual

/-- The named-argument loop of `Cmd._construct_args`: a name not among the
declared parameters is demoted to the free pool as the string `name=value`
(with an `unrecognized argument` warning printed), a name already decoded
raises `duplicate value for argument`, otherwise the value is decoded. -/
def cmdConstructLoop (formal : List Parameter) :
    List (String × String) → List (String × Value) → List String → List String →
    Except PyErr (List (String × Value))
  | [], typed, free, extra => do
    let typed' ← Cmd.assignFreeArgs formal typed (free ++ extra)
    return Cmd.fillDefaultArgs formal typed'
  | (name, value) :: rest, typed, free, extra =>
    match lookupFormal formal name with
    | none => cmdConstructLoop formal rest typed free (extra ++ [name ++ "=" ++ value])
    | some p =>
      if (typed.lookup name).isSome then .error (.syntaxDuplicateValue name)
      else do
        let v ← constructArg p.ty value
        cmdConstructLoop formal rest (typed ++ [(name, v)]) free extra

/-- `Cmd._construct_args(formal, named_args, free_args)`: decode the named
arguments (demoting unrecognized ones), then assign the free values, then
fill defaults. -/
def Cmd.constructArgs (formal : List Parameter) (named : List (String × String))
    (free : List String) : Except PyErr (List (String × Value)) :=
  cmdConstructLoop formal named [] free []

/-! ## Completion (`powercmd/completer.py` and the older completer in
`powercmd/cmd.py`) -/

/-- `prompt_toolkit.completion.Completion(text, start_position, display_meta)`
restricted to the fields the embedded code sets (`display_meta` defaults to
the empty string). -/
structure Completion where
  text : String
  startPosition : Int
  displayMeta : String := ""
  deriving DecidableEq, Repr

/-- `_complete_enum(enum, incomplete_value)` (identical in `completer.py` and
`cmd.py`): run the Matcher over the member names and yield a completion per
match, with the member's value as display metadata. -/
def completeEnum (members : List (String × String)) (incompleteValue : String) :
    List Completion :=
  (matchString incompleteValue (members.map Prod.fst)).filterMap fun n =>
    (members.lookup n).map fun v =>
      ⟨n, -(incompleteValue.toList.length : Int), v⟩

/-- `Completer._complete_value(type_hint, incomplete_value)` from
`completer.py`, with explicit recursion fuel (the recursion follows the
nesting structure of the type descriptor; every entry point passes
`Ty.depth ty + 1`, which the nesting depth never exhausts):
* `list inner` (`_complete_generic_list`): delimiter-aware split with
  unmatched delimiters allowed, recurse on the last piece with `inner`;
* `tuple inners` (`_complete_generic_tuple`): same split; more pieces than
  declared inner types yields nothing, otherwise recurse on the last piece
  with `inners[len(args) - 1]`;
* `enum`: Matcher over member names;
* scalars: a single empty completion carrying `str(type_hint)`
  (`powercmd_complete` custom types play no role in any claim).
`split_list` with `allow_unmatched=True` never raises, and always yields at
least one piece, so the error and out-of-range branches are unreachable. -/
def completeValueFuel : Nat → Ty → String → List Completion
  | 0, _, _ => []
  | fuel + 1, ty, incompleteValue =>
    match ty with
    | .list inner =>
      match splitList incompleteValue ',' true with
      | .ok args => completeValueFuel fuel inner (args.getLastD "")
      | .error _ => []
    | .tuple ts =>
      match splitList incompleteValue ',' true with
      | .ok args =>
        if args.length > ts.length then []
        else
          match ts.get? (args.length - 1) with
          | some t => completeValueFuel fuel t (args.getLastD "")
          | none => []
      | .error _ => []
    | .enum _ ms => completeEnum ms incompleteValue
    | _ => [⟨"", 0, ty.displayName⟩]

/-- `Completer._complete_value(type_hint, incomplete_value)`. -/
def Completer.completeValue (ty : Ty) (incompleteValue : String) : List Completion :=
  completeValueFuel (Ty.depth ty + 1) ty incompleteValue

/-- `Completer._complete_generic_tuple(inner_types, incomplete_value)` from
`completer.py`: split the partial value, give up when there are more pieces
than inner types, otherwise complete the last piece against its own inner
type. -/
def Completer.completeGenericTuple (inners : List Ty) (incompleteValue : String) :
    List Completion :=
  match splitList incompleteValue ',' true with
  | .ok args =>
    if args.length > inners.length then []
    else
      match inners.get? (args.length - 1) with
      | some t => Completer.completeValue t (args.getLastD "")
      | none => []
  | .error _ => []

/-- The first argument of the old `CmdCompleter._complete_value` in `cmd.py`
is an arbitrary Python object in the buggy call site: the values that
actually flow there are a type annotation, the `CmdCompleter` instance
itself (`self`), or a string. -/
inductive PyObj where
  | ty (t : Ty)
  | completer
  | str (s : String)

/-- `CmdCompleter._complete_value(type, incomplete_value)` from `cmd.py`.
On a type annotation it dispatches exactly like the newer
`Completer._complete_value`.  On any non-class first argument (the
`CmdCompleter` instance, a string) the generic check fails and
`issubclass(type, enum.Enum)` raises
`TypeError: issubclass() arg 1 must be a class`.
The second argument is only ever used as a string; a non-string there would
fail inside `split_list`/`match_string` (unreachable: the buggy tuple branch
errors on its first argument before looking at the second). -/
def CmdCompleter.completeValueFuel : Nat → PyObj → PyObj → Except PyErr (List Completion)
  | 0, _, _ => .ok []
  | fuel + 1, typeArg, incompleteValue =>
    match typeArg with
    | .completer => .error (.typeError "issubclass() arg 1 must be a class")
    | .str _ => .error (.typeError "issubclass() arg 1 must be a class")
    | .ty t =>
      match t with
      | .list inner =>
        -- `_complete_generic_list(type.__args__[0], incomplete_value)`
        match incompleteValue with
        | .str s =>
          match splitList s ',' true with
          | .ok args =>
            CmdCompleter.completeValueFuel fuel (.ty inner) (.str (args.getLastD ""))
          | .error e => .error e
        | _ => .error (.typeError "expected string")
      | .tuple ts =>
        -- `_complete_generic_tuple(type.__args__, incomplete_value)`:
        -- note the arguments of the recursive call below — `self` is passed
        -- as the type and the inner type as the incomplete value.
        match incompleteValue with
        | .str s =>
          match splitList s ',' true with
          | .ok args =>
            if args.length > ts.length then .ok []
            else
              match ts.get? (args.length - 1) with
              | some inner => CmdCompleter.completeValueFuel fuel .completer (.ty inner)
              | none => .error .indexError
          | .error e => .error e
        | _ => .error (.typeError "expected string")
      | .enum _ ms =>
        match incompleteValue with
        | .str s => .ok (completeEnum ms s)
        | _ => .error (.typeError "expected string")
      | _ =>
        .ok [⟨"", 0, t.displayName⟩]

/-- `CmdCompleter._complete_generic_tuple(inner_types, incomplete_value)` from
`cmd.py`: like the newer version, except that the recursive call is
`self._complete_value(self, inner_types[len(args) - 1])` — the completer
object where the type belongs and the inner type where the partial value
belongs. -/
def CmdCompleter.completeGenericTuple (inners : List Ty) (incompleteValue : String) :
    Except PyErr (List Completion) :=
  match splitList incompleteValue ',' true with
  | .ok args =>
    if args.length > inners.length then .ok []
    else
      match inners.get? (args.length - 1) with
      | some inner =>
        CmdCompleter.completeValueFuel (Ty.depth inner + 2) .completer (.ty inner)
      | none => .error .indexError
  | .error e => .error e

/-- A registered command as the completer sees it: its name, the first line of
its docstring, and its ordered parameter list (`powercmd/command.py`'s
`Command`, with `parameters` precomputed). -/
structure Command where
  name : String
  shortDescription : String := ""
  parameters : List Parameter

/-- `Completer._complete_params(cmd, incomplete_param)`: run the Matcher over
*all* declared parameter names of the command and yield a completion per
match, with `str(param.type)` as display metadata (identical to
`CmdCompleter._complete_params` in `cmd.py`). -/
def Completer.completeParams (cmd : Command) (incompleteParam : String) : List Completion :=
  (matchString incompleteParam (cmd.parameters.map Parameter.name)).filterMap fun pname =>
    (cmd.parameters.find? fun p => p.name == pname).map fun p =>
      ⟨p.name, -(incompleteParam.toList.length : Int), p.ty.displayName⟩

/-- `Completer._complete_commands(incomplete_cmd)`: Matcher over the command
names, each completion carrying the command's short description. -/
def Completer.completeCommands (cmds : List Command) (incompleteCmd : String) :
    List Completion :=
  (matchString incompleteCmd (cmds.map Command.name)).filterMap fun cname =>
    (cmds.find? fun c => c.name == cname).map fun c =>
      ⟨c.name, -(incompleteCmd.toList.length : Int), c.shortDescription⟩

/-- Modelled from the spec: `CommandsDict.choose` (module
`powercmd/commands_dict.py` is missing from the source tree).  §4.2
resolution outcomes: run the Matcher over the registered command names; zero
matches (`NoSuchEntity`) or more than one (`Ambiguous`) raise `ValueError`
(which `Completer.get_completions` catches), exactly one match returns that
command. -/
def chooseCommand (cmds : List Command) (shortCmd : String) : Except PyErr Command :=
  match matchString shortCmd (cmds.map Command.name) with
  | [m] =>
    match cmds.find? fun c => c.name == m with
    | some c => .ok c
    | none => .error (.keyError m)
  | [] => .error (.valueError ("no such command: " ++ shortCmd))
  | _ => .error (.valueError ("ambiguous command: " ++ shortCmd))

/-- `prompt_toolkit`'s
`Document.find_boundaries_of_current_word(WORD=True)`, shifted to absolute
positions as `get_completions` does: the current WORD is the maximal run of
non-whitespace characters around the cursor. -/
def currentWordBounds (text : String) (cursor : Nat) : Nat × Nat :=
  let chars := text.toList
  let start := cursor - ((chars.take cursor).reverse.takeWhile fun c => !c.isWhitespace).length
  let stop := cursor + ((chars.drop cursor).takeWhile fun c => !c.isWhitespace).length
  (start, stop)

/-- Python `text.strip()`. -/
def pyStrip (s : String) : String :=
  String.mk ((s.toList.dropWhile Char.isWhitespace).reverse.dropWhile Char.isWhitespace).reverse

/-- `Completer.get_completions(document)` from `completer.py`:
* `incomplete_cmd` is the first word of the stripped text;
* the current WORD around the cursor is located; if everything before it is
  blank, this is the command phase;
* otherwise the command is resolved (`ValueError` → no completions);
* a current word without `=` is completed as a parameter name, over all
  declared parameter names;
* a current word `name=partial` is completed as a value for the exactly-named
  parameter, or not at all if the name matches no parameter. -/
def getCompletions (cmds : List Command) (text : String) (cursor : Nat) : List Completion :=
  let incompleteCmd :=
    if (pyStrip text).toList.isEmpty then ""
    else String.mk ((pyStrip text).toList.takeWhile fun c => !c.isWhitespace)
  let (start, stop) := currentWordBounds text cursor
  let currentWord := String.mk ((text.toList.take stop).drop start)
  let currentWordIsCommand := (pyStrip (String.mk (text.toList.take start))).toList.isEmpty
  if currentWordIsCommand then Completer.completeCommands cmds incompleteCmd
  else
    match chooseCommand cmds incompleteCmd with
    | .error _ => []
    | .ok cmd =>
      if !(currentWord.toList.contains '=') then Completer.completeParams cmd currentWord
      else
        let paramName := String.mk (currentWord.toList.takeWhile fun c => c ≠ '=')
        let incompleteValue := String.mk ((currentWord.toList.dropWhile fun c => c ≠ '=').drop 1)
        match cmd.parameters.find? fun p => p.name == paramName with
        | some p => Completer.completeValue p.ty incompleteValue
        | none => []

/-! ## Test fixtures

The running example of the spec and of the repository's own tests:
`test(first: str, second: int)`, and `TestEnum` with members `First = 1`,
`Second = 2`. -/

/-- Parameters of `do_test(self, first: str, second: int)`. -/
def testFormal : List Parameter :=
  [⟨"first", .str, none⟩, ⟨"second", .int, none⟩]

/-- The registered `test` command. -/
def testCommand : Command :=
  ⟨"test", "", testFormal⟩

/-- `TestEnum` from `test_completer.py`. -/
def testEnumTy : Ty :=
  .enum "TestEnum" [("First", "1"), ("Second", "2")]

/-! ## Properties of the sort order -/

theorem pyLeChars_total : ∀ as bs : List Char, pyLeChars as bs = true ∨ pyLeChars bs as = true := by
  intro as
  induction as with
  | nil => intro bs; left; rfl
  | cons a as ih =>
    intro bs
    cases bs with
    | nil => right; rfl
    | cons b bs =>
      by_cases h : a = b
      · subst h
        simpa only [pyLeChars, if_pos rfl] using ih bs
      · rcases Ne.lt_or_lt h with hlt | hlt
        · left; simp [pyLeChars, h, hlt]
        · right; simp [pyLeChars, Ne.symm h, hlt]

theorem pyLeChars_trans : ∀ as bs cs : List Char, pyLeChars as bs = true →
    pyLeChars bs cs = true → pyLeChars as cs = true := by
  intro as
  induction as with
  | nil => intro bs cs _ _; rfl
  | cons a as ih =>
    intro bs cs h1 h2
    cases bs with
    | nil => simp [pyLeChars] at h1
    | cons b bs =>
      cases cs with
      | nil => simp [pyLeChars] at h2
      | cons c cs =>
        by_cases hab : a = b
        · subst hab
          by_cases hac : a = c
          · subst hac
            simp only [pyLeChars, if_pos rfl] at h1 h2 ⊢
            exact ih bs cs h1 h2
          · simp only [pyLeChars, if_pos rfl] at h1
            simpa [pyLeChars, hac] using by simpa [pyLeChars, hac] using h2
        · by_cases hbc : b = c
          · subst hbc
            simpa [pyLeChars, hab] using by simpa [pyLeChars, hab] using h1
          · simp only [pyLeChars, if_neg hab, decide_eq_true_eq] at h1
            simp only [pyLeChars, if_neg hbc, decide_eq_true_eq] at h2
            by_cases hac : a = c
            · subst hac
              exact absurd (lt_trans h1 h2) (lt_irrefl a)
            · simp [pyLeChars, hac, lt_trans h1 h2]

instance : IsTotal String fun a b => pyLe a b = true :=
  ⟨fun a b => pyLeChars_total a.toList b.toList⟩

instance : IsTrans String fun a b => pyLe a b = true :=
  ⟨fun a b c => pyLeChars_trans a.toList b.toList c.toList⟩

theorem pySorted_sorted (l : List String) :
    (pySorted l).Sorted fun a b => pyLe a b = true :=
  List.sorted_insertionSort _ l

theorem pySorted_ne_nil {l : List String} (h : l ≠ []) : pySorted l ≠ [] := by
  intro he
  apply h
  have hlen := congrArg List.length he
  simp only [pySorted, List.length_insertionSort, List.length_nil] at hlen
  exact List.eq_nil_of_length_eq_zero hlen

/-- The alphabetically sorted matches that a single strategy produces. -/
def strategyMatches (strategy : String → String → Bool) (text : String)
    (possible : List String) : List String :=
  pySorted (possible.filter fun e => strategy text e)

/-! ## Claim C3 -/

/-- C3 counterexample: the claim states that resolving `"gv"` against
`{"get_total_value_of_foo"}` returns the empty sequence; it actually returns
`["get_total_value_of_foo"]`, because after the snake-case strategy rejects
it, the fourth strategy of the cascade — fuzzy subsequence — accepts it
(`g`…`v` appears in order in the candidate). -/
theorem C3_gv_resolves_via_fuzzy_counterexample :
    matchString "gv" ["get_total_value_of_foo"] = ["get_total_value_of_foo"] := by
  decide

/-- C3 (amended): resolving `"gval"` against `{"get_value", "get_total"}`
returns exactly `["get_value"]`; the snake-case strategy's contiguous-word
constraint does reject `"gv"` against `"get_total_value_of_foo"`, but the
fuzzy-subsequence fallback then accepts it, so the resolution returns
`["get_total_value_of_foo"]` rather than the empty sequence. -/
theorem C3_amended_resolution_examples :
    matchString "gval" ["get_value", "get_total"] = ["get_value"]
    ∧ snakeCaseMatches "gv" "get_total_value_of_foo" = false
    ∧ fuzzyMatches "gv" "get_total_value_of_foo" = true
    ∧ matchString "gv" ["get_total_value_of_foo"] = ["get_total_value_of_foo"] := by
  refine ⟨by decide, by decide, by decide, by decide⟩

/-! ## Claim C4 -/

/-- C4 counterexample: the claim states that for *every* candidate set the
empty query returns all candidates via the prefix strategy's trivial case;
when the empty string is itself a candidate, the exact-equality strategy
matches it first and only `[""]` is returned, not the full candidate set. -/
theorem C4_empty_query_empty_candidate_counterexample :
    matchString "" ["", "a"] = [""] ∧ matchString "" ["", "a"] ≠ pySorted ["", "a"] := by
  refine ⟨by decide, by decide⟩

/-- C4 (amended): `match_string` returns the alphabetically sorted matches of
the first strategy in the fixed order (exact, prefix, snake case, fuzzy) that
yields at least one match, never combining strategies; the result is always
sorted; and the empty query returns all candidates via the prefix strategy's
trivial case — provided the empty string is not itself a candidate (otherwise
the exact strategy fires first and returns only `[""]`). -/
theorem C4_amended_first_strategy_sorted (text : String) (possible : List String) :
    (matchString text possible =
      if strategyMatches exactStrategy text possible = [] then
        if strategyMatches prefixStrategy text possible = [] then
          if strategyMatches snakeCaseMatches text possible = [] then
            if strategyMatches fuzzyMatches text possible = [] then []
            else strategyMatches fuzzyMatches text possible
          else strategyMatches snakeCaseMatches text possible
        else strategyMatches prefixStrategy text possible
      else strategyMatches exactStrategy text possible)
    ∧ (matchString text possible).Sorted (fun a b => pyLe a b = true)
    ∧ (text = "" → "" ∉ possible → matchString text possible = pySorted possible) := by
  have hms : matchString text possible =
      if strategyMatches exactStrategy text possible = [] then
        if strategyMatches prefixStrategy text possible = [] then
          if strategyMatches snakeCaseMatches text possible = [] then
            if strategyMatches fuzzyMatches text possible = [] then []
            else strategyMatches fuzzyMatches text possible
          else strategyMatches snakeCaseMatches text possible
        else strategyMatches prefixStrategy text possible
      else strategyMatches exactStrategy text possible := by
    simp only [matchString, matchStrategies, matchStringAux, strategyMatches,
      List.isEmpty_iff]
  refine ⟨hms, ?_, ?_⟩
  · rw [hms]
    split_ifs <;> first | exact List.sorted_nil | exact pySorted_sorted _
  · intro ht hni
    subst ht
    have he : strategyMatches exactStrategy "" possible = [] := by
      unfold strategyMatches
      have hf : possible.filter (fun e => exactStrategy "" e) = [] := by
        rw [List.filter_eq_nil_iff]
        intro a ha hpa
        have : "" = a := by simpa [exactStrategy] using hpa
        exact hni (this ▸ ha)
      rw [hf]
      rfl
    have hp : strategyMatches prefixStrategy "" possible = pySorted possible := by
      unfold strategyMatches
      congr 1
      apply List.filter_eq_self.mpr
      intro a _
      unfold prefixStrategy pyStartswith
      rw [String.toList_empty]
      cases a.toList <;> rfl
    by_cases hpos : possible = []
    · subst hpos
      decide
    · rw [hms, he, hp]
      simp [pySorted_ne_nil hpos]

/-- C4 witness: at the concrete empty query over `["b", "a"]` the resolution
returns all candidates, sorted. -/
theorem C4_amended_first_strategy_sorted_witness :
    matchString "" ["b", "a"] = pySorted ["b", "a"] :=
  (C4_amended_first_strategy_sorted "" ["b", "a"]).2.2 rfl (by decide)

/-! ## Claim C1 -/

/-- C1 counterexample: the claim states that on `test(first: string,
second: int)` the line `"test first=first 2"` binds `second = 2`.  On the
binder of `cmd.py` (`Cmd._construct_args`; the line tokenizes into the named
argument `first=first` and the free value `"2"`), `_assign_free_args` zips
the free values with the declared parameters in declaration order starting
from the *first* parameter, so the free value `"2"` lands on `first`, which
is already bound by name, and binding fails with the
`cannot assign free argument to first: argument already present` error —
exactly the behaviour the repository's own test
(`test_construct_mixed_free_named` in `test_cmd.py`, `expect_no_calls`)
asserts. -/
theorem C1_mixed_named_positional_counterexample :
    Cmd.constructArgs testFormal [("first", "first")] ["2"] =
      .error (.syntaxAlreadyPresent "first") := rfl

/-- C1 (amended): the two binder generations disagree on a name+position mix.
On `Cmd._construct_args` (`cmd.py`), free values are zipped with the declared
parameters from the first parameter onwards regardless of which ones are
already bound, so `"test first=first 2"` fails with the already-present
error; the "duplicate/already bound" failure therefore does *not* only occur
when the same parameter would receive two values.  On
`CommandLine.assign_args` (`command_line.py`), each parameter in declaration
order pops its named argument first and otherwise the next free value, so the
same line succeeds, assigning the positional value `"2"` to `second`, the
first parameter not bound by name.  In both binders a parameter bound by name
is never reassigned by a positional value (the first errors out, the second
consumes the named argument before any positional can reach the slot). -/
theorem C1_amended_mixed_named_positional :
    Cmd.constructArgs testFormal [("first", "first")] ["2"] =
      .error (.syntaxAlreadyPresent "first")
    ∧ (commandLine "test first=first 2").map
        (fun cl => cl.assignArgs ["first", "second"]) =
      .ok (.ok [("first", .str "first"), ("second", .str "2")]) :=
  ⟨rfl, rfl⟩

/-! ## Claim C2 -/

/-- C2 counterexample: the claim states that a parameter that already
received a value on the line is never offered as a suggestion.  On the line
`"test first=x fi"` with the cursor at the end, `first` has already received
the value `x`, yet the completion engine offers `first`:
`Completer._complete_params` runs the Matcher over *all* declared parameter
names of the resolved command and never consults the other tokens of the
line (the source even carries a
`TODO: would be cool to exclude existing params`). -/
theorem C2_assigned_param_offered_counterexample :
    getCompletions [testCommand] "test first=x fi" 15 =
      [⟨"first", -2, "<class 'str'>"⟩] := rfl

/-- C2 (amended): in the parameter-name completion phase the engine matches
the current token against *all* declared parameter names of the command,
ignoring which parameters the tokens already on the line have assigned; a
parameter that already received a value is still offered.  On
`test(first: str, second: int)`: refining `fi` after `first=x` offers
`first`, and a fresh token after `first=x ` offers both `first` and
`second`. -/
theorem C2_amended_param_completion_ignores_binding :
    getCompletions [testCommand] "test first=x fi" 15 =
      [⟨"first", -2, "<class 'str'>"⟩]
    ∧ getCompletions [testCommand] "test first=x " 13 =
      [⟨"first", 0, "<class 'str'>"⟩, ⟨"second", 0, "<class 'int'>"⟩] :=
  ⟨rfl, rfl⟩

/-! ## Claim C8 -/

/-- C8 counterexample: the claim states that the boolean decode convention is
case-insensitive, so `"FALSE"` should decode to `false`; the constructor is
`lambda value: value not in ('', '0', 'false', 'False')`, a case-sensitive
four-element list, and `"FALSE"` decodes to `true`. -/
theorem C8_uppercase_false_decodes_true_counterexample :
    constructArg Ty.bool "FALSE" = .ok (.bool true) := rfl

/-- C8 (amended): decoding a value for a `bool` parameter maps exactly the
four strings `""`, `"0"`, `"false"` and `"False"` to `false` — a
case-sensitive list, not a case-insensitive comparison — and every other
string (including `"FALSE"` and `"fAlSe"`) to `true`. -/
theorem C8_amended_bool_decode (s : String) :
    (constructArg Ty.bool s = .ok (.bool false) ↔
      s = "" ∨ s = "0" ∨ s = "false" ∨ s = "False")
    ∧ constructArg Ty.bool "FALSE" = .ok (.bool true)
    ∧ constructArg Ty.bool "fAlSe" = .ok (.bool true) := by
  refine ⟨?_, rfl, rfl⟩
  have hca : constructArg Ty.bool s =
      .ok (.bool (!(["", "0", "false", "False"].contains s))) := rfl
  rw [hca]
  constructor
  · intro h
    have hb : (!(["", "0", "false", "False"].contains s)) = false := by
      injection h with h'
      injection h'
    have helem : (["", "0", "false", "False"].contains s) = true := by
      cases hc : (["", "0", "false", "False"].contains s) with
      | true => rfl
      | false => rw [hc] at hb; simp at hb
    have hmem : s ∈ (["", "0", "false", "False"] : List String) :=
      List.mem_of_elem_eq_true helem
    simpa using hmem
  · intro h
    have helem : (["", "0", "false", "False"].contains s) = true := by
      apply List.elem_eq_true_of_mem
      rcases h with h | h | h | h <;> simp [h]
    rw [helem]
    rfl

/-- C8 witness: the amended statement at the concrete input `"FALSE"`. -/
theorem C8_amended_bool_decode_witness :
    (constructArg Ty.bool "FALSE" = .ok (.bool false) ↔
      "FALSE" = "" ∨ "FALSE" = "0" ∨ "FALSE" = "false" ∨ "FALSE" = "False")
    ∧ constructArg Ty.bool "FALSE" = .ok (.bool true)
    ∧ constructArg Ty.bool "fAlSe" = .ok (.bool true) :=
  C8_amended_bool_decode "FALSE"

/-! ## Claim C10 -/

/-- C10 (code bug): the two tuple-value completers do *not* return the same
completions.  For a `Tuple[TestEnum, ...]` annotation and the partial value
`""`, the newer `Completer._complete_generic_tuple` (`completer.py`) recurses
with `(inner_types[len(args) - 1], args[-1])` and yields the enum member
completions, while the older `CmdCompleter._complete_generic_tuple`
(`cmd.py`) calls `self._complete_value(self, inner_types[len(args) - 1])` —
passing the completer object where the type belongs and the inner type where
the partial value belongs — so `issubclass(type, enum.Enum)` raises
`TypeError: issubclass() arg 1 must be a class` instead of producing the
completions its own docstring promises. -/
theorem C10_tuple_completers_diverge :
    CmdCompleter.completeGenericTuple [testEnumTy] "" =
      .error (.typeError "issubclass() arg 1 must be a class")
    ∧ Completer.completeGenericTuple [testEnumTy] "" =
      [⟨"First", 0, "1"⟩, ⟨"Second", 0, "2"⟩] :=
  ⟨rfl, rfl⟩

/-! ## Claim C5 -/

theorem splitCmdlineAux_allowUnmatched_isOk :
    ∀ (cs : List Char) (q : Option Char) (cur : List Char) (acc : List String),
      (splitCmdlineAux true cs q cur acc).isOk = true := by
  intro cs
  induction cs with
  | nil =>
    intro q cur acc
    cases q <;> rfl
  | cons c cs ih =>
    intro q cur acc
    cases q with
    | some q' =>
      simp only [splitCmdlineAux]
      split
      · exact ih _ _ _
      · exact ih _ _ _
    | none =>
      simp only [splitCmdlineAux]
      split
      · exact ih _ _ _
      · split
        · exact ih _ _ _
        · exact ih _ _ _

/-- C5 counterexample: the claim states that any raw line containing an
unterminated quote fails with `UnterminatedQuote` and never yields a partial
token.  `CommandLine.__init__` calls `split_cmdline(cmdline,
allow_unmatched=True)`, so `CommandLine('foo "bar')` succeeds and the partial
token `"bar` is kept verbatim as a positional argument. -/
theorem C5_unterminated_quote_tokenizes_counterexample :
    commandLine "foo \"bar" =
      .ok ⟨"foo \"bar", ["foo", "\"bar"], "foo", [.positional "\"bar"]⟩ := rfl

/-- C5 (amended): the unmatched-quote error exists only in the
`allow_unmatched=False` mode of `split_cmdline`; `CommandLine` construction
always passes `allow_unmatched=True`, under which tokenization never fails
and an unterminated quote yields the partial token verbatim (`'foo "bar'` →
words `foo`, `"bar`). -/
theorem C5_amended_unterminated_quote (text : String) :
    (splitCmdline text true).isOk = true
    ∧ splitCmdline "foo \"bar" false = .error .unterminatedQuote
    ∧ commandLine "foo \"bar" =
        .ok ⟨"foo \"bar", ["foo", "\"bar"], "foo", [.positional "\"bar"]⟩ :=
  ⟨splitCmdlineAux_allowUnmatched_isOk _ _ _ _, rfl, rfl⟩

/-- C5 witness: the amended statement at a concrete line with an unterminated
quote. -/
theorem C5_amended_unterminated_quote_witness :
    (splitCmdline "x \"y" true).isOk = true
    ∧ splitCmdline "foo \"bar" false = .error .unterminatedQuote
    ∧ commandLine "foo \"bar" =
        .ok ⟨"foo \"bar", ["foo", "\"bar"], "foo", [.positional "\"bar"]⟩ :=
  C5_amended_unterminated_quote "x \"y"

/-! ## Claim C7 -/

/-- C7 counterexample: the claim states that any surplus of positional tokens
fails with `TooManyArguments(max=len(parameters))`.  On the
`CommandLine.assign_args` binder with `test(first, second)` and the line
`"test a b c"`, the main loop first consumes `a` and `b` for the two
parameters, leaving one value; `_assign_free_args` then zips it with the
*first* parameter, which is already filled, and binding fails with the
`cannot assign free argument to first: argument already present` error — not
the `too many free arguments` error the claim names (that one only fires
when the leftovers outnumber the parameters). -/
theorem C7_commandline_wrong_error_counterexample :
    (commandLine "test a b c").map (fun cl => cl.assignArgs ["first", "second"]) =
      .ok (.error (.invalidInputAlreadyPresent "first")) := rfl

/-- C7 (amended): on the `Cmd._construct_args` binder the claim holds as
stated — with only positional tokens, a surplus over the declared parameters
fails with `too many free arguments: expected at most len(formal)` before any
value is decoded (the error depends only on the counts, for every parameter
list and every token content).  On the `CommandLine.assign_args` binder,
binding also always fails, but with the `argument already present` error when
the surplus is at most the number of parameters (`"test a b c"` on two
parameters), and with the too-many error only when the leftovers outnumber
the parameters (`"test a b c d e"`). -/
theorem C7_amended_too_many_positionals (formal : List Parameter) (free : List String)
    (h : free.length > formal.length) :
    Cmd.constructArgs formal [] free = .error (.syntaxTooMany formal.length)
    ∧ (commandLine "test a b c").map (fun cl => cl.assignArgs ["first", "second"]) =
        .ok (.error (.invalidInputAlreadyPresent "first"))
    ∧ (commandLine "test a b c d e").map (fun cl => cl.assignArgs ["first", "second"]) =
        .ok (.error (.invalidInputTooMany 2)) := by
  refine ⟨?_, rfl, rfl⟩
  unfold Cmd.constructArgs cmdConstructLoop Cmd.assignFreeArgs
  rw [List.append_nil, if_pos h]
  rfl

/-- C7 witness: the amended statement at `test(first: str, second: int)` with
the three positional values `a b c`. -/
theorem C7_amended_too_many_positionals_witness :
    (["a", "b", "c"] : List String).length > testFormal.length
    ∧ (Cmd.constructArgs testFormal [] ["a", "b", "c"] =
          .error (.syntaxTooMany testFormal.length)
        ∧ (commandLine "test a b c").map (fun cl => cl.assignArgs ["first", "second"]) =
            .ok (.error (.invalidInputAlreadyPresent "first"))
        ∧ (commandLine "test a b c d e").map (fun cl => cl.assignArgs ["first", "second"]) =
            .ok (.error (.invalidInputTooMany 2))) :=
  ⟨by decide, C7_amended_too_many_positionals testFormal ["a", "b", "c"] (by decide)⟩

/-! ## Claim C6 -/

/-- Reading the binding result as Python compares dicts: by key, ignoring
insertion order (an error yields no bindings). -/
def resLookup (r : Except PyErr (List (String × Value))) : String → Option Value :=
  fun k =>
    match r with
    | .ok l => l.lookup k
    | .error _ => none

theorem lookup_append_of_none {β : Type} (l₁ l₂ : List (String × β)) (k : String)
    (h : l₁.lookup k = none) : (l₁ ++ l₂).lookup k = l₂.lookup k := by
  rw [List.lookup_append, h]
  rfl

theorem lookup_isSome_of_mem_keys {β : Type} (l : List (String × β)) (k : String)
    (h : k ∈ l.map Prod.fst) : (l.lookup k).isSome = true := by
  obtain ⟨p, hp, hfst⟩ := List.mem_map.mp h
  exact List.lookup_isSome_iff.mpr ⟨p, hp, by rw [hfst]; exact beq_self_eq_true k⟩

/-- Looking a key up in an association list with duplicate-free keys is
invariant under permutation (Python dict equality). -/
theorem lookup_eq_of_perm {β : Type} {l l' : List (String × β)} (hp : l.Perm l') :
    (l.map Prod.fst).Nodup → ∀ k : String, l.lookup k = l'.lookup k := by
  induction hp with
  | nil => intro _ _; rfl
  | cons x h ih =>
    obtain ⟨xk, xv⟩ := x
    intro hnd k
    simp only [List.lookup_cons]
    cases hb : k == xk with
    | true => rfl
    | false =>
      simp only [List.map_cons, List.nodup_cons] at hnd
      exact ih hnd.2 k
  | swap x y l =>
    obtain ⟨xk, xv⟩ := x
    obtain ⟨yk, yv⟩ := y
    intro hnd k
    simp only [List.map_cons, List.nodup_cons, List.mem_cons] at hnd
    have hxy : yk ≠ xk := fun he => hnd.1 (Or.inl he)
    by_cases hky : k = yk
    · subst hky
      simp [List.lookup_cons, beq_false_of_ne hxy]
    · by_cases hkx : k = xk
      · subst hkx
        simp [List.lookup_cons, beq_false_of_ne (Ne.symm hxy), beq_false_of_ne hky]
      · simp [List.lookup_cons, beq_false_of_ne hky, beq_false_of_ne hkx]
  | trans h₁ h₂ ih₁ ih₂ =>
    intro hnd k
    exact (ih₁ hnd k).trans (ih₂ (((h₁.map Prod.fst).nodup_iff).mp hnd) k)

/-- The decoded pair a named token contributes to the result of the
named-argument loop, under the hypotheses of C6 (declared name, successful
decode); the fallbacks are unreachable junk. -/
def decodedPair (formal : List Parameter) (kv : String × String) : String × Value :=
  (kv.1,
    match lookupFormal formal kv.1 with
    | some p =>
      match constructArg p.ty kv.2 with
      | .ok v => v
      | .error _ => .str ""
    | none => .str "")

theorem cmdConstructLoop_all_named (formal : List Parameter) :
    ∀ (named : List (String × String)) (typed : List (String × Value)),
      (∀ kv ∈ named, ∃ p, lookupFormal formal kv.1 = some p ∧
        (constructArg p.ty kv.2).isOk = true) →
      (∀ kv ∈ named, (typed.lookup kv.1) = none) →
      (named.map Prod.fst).Nodup →
      cmdConstructLoop formal named typed [] [] =
        cmdConstructLoop formal [] (typed ++ named.map (decodedPair formal)) [] [] := by
  intro named
  induction named with
  | nil => intro typed _ _ _; simp
  | cons kv rest ih =>
    intro typed hdec hdisj hnd
    obtain ⟨p, hlf, hok⟩ := hdec kv (List.mem_cons_self kv rest)
    obtain ⟨val, hval⟩ : ∃ val, constructArg p.ty kv.2 = .ok val := by
      cases hca : constructArg p.ty kv.2 with
      | ok w => exact ⟨w, rfl⟩
      | error e => rw [hca] at hok; exact absurd hok (by simp [Except.isOk, Except.toBool])
    cases kv with
    | mk n v =>
      simp only at hlf hval
      simp only [List.map_cons, List.nodup_cons] at hnd
      have hnone : typed.lookup n = none := hdisj (n, v) (List.mem_cons_self _ _)
      have hdp : decodedPair formal (n, v) = (n, val) := by
        unfold decodedPair
        simp only [hlf, hval]
      have hdisj' : ∀ kv' ∈ rest, ((typed ++ [(n, val)]).lookup kv'.1) = none := by
        intro kv' hkv'
        have hne : kv'.1 ≠ n := by
          intro he
          exact hnd.1 (he ▸ (List.mem_map_of_mem Prod.fst hkv'))
        rw [lookup_append_of_none typed _ _ (hdisj kv' (List.mem_cons_of_mem _ hkv'))]
        simp [List.lookup_cons, beq_false_of_ne hne]
      calc cmdConstructLoop formal ((n, v) :: rest) typed [] []
          = cmdConstructLoop formal rest (typed ++ [(n, val)]) [] [] := by
            simp only [cmdConstructLoop, hlf, hnone, Option.isSome_none,
              Bool.false_eq_true, if_false, Bind.bind, Except.bind, hval]
        _ = cmdConstructLoop formal []
              ((typed ++ [(n, val)]) ++ rest.map (decodedPair formal)) [] [] :=
            ih (typed ++ [(n, val)])
              (fun kv' hkv' => hdec kv' (List.mem_cons_of_mem _ hkv')) hdisj' hnd.2
        _ = cmdConstructLoop formal []
              (typed ++ ((n, v) :: rest).map (decodedPair formal)) [] [] := by
            rw [List.append_assoc]
            simp only [List.map_cons, hdp, List.singleton_append]

theorem fillDefaultArgs_noop :
    ∀ (formal : List Parameter) (T : List (String × Value)),
      (∀ p ∈ formal, (T.lookup p.name).isSome = true) →
      Cmd.fillDefaultArgs formal T = T := by
  intro formal
  induction formal with
  | nil => intro T _; rfl
  | cons p ps ih =>
    intro T hall
    have hp := hall p (List.mem_cons_self p ps)
    have hnone : (T.lookup p.name).isNone = false := by
      rw [Option.isNone_eq_false_iff, Option.isSome_iff_exists] at *
      exact hp
    unfold Cmd.fillDefaultArgs at *
    simp only [List.foldl_cons, hnone]
    exact ih T (fun q hq => hall q (List.mem_cons_of_mem p hq))

theorem cmdConstructLoop_nil_ok (formal : List Parameter) (T : List (String × Value))
    (hall : ∀ p ∈ formal, (T.lookup p.name).isSome = true) :
    cmdConstructLoop formal [] T [] [] = .ok T := by
  simp only [cmdConstructLoop, List.append_nil, Cmd.assignFreeArgs]
  rw [if_neg (by simp)]
  rw [List.zip_nil_right]
  simp only [cmdAssignFreeLoop, Bind.bind, Except.bind]
  rw [fillDefaultArgs_noop formal T hall]
  rfl

/-- C6: for a command whose parameters are all required, binding named tokens
that cover every parameter (with decodable values) succeeds, and any
permutation of the tokens succeeds with the identical binding result — the
same value for every parameter name. -/
theorem C6_named_order_invariance (formal : List Parameter)
    (named named' : List (String × String))
    (hformalnd : (formal.map Parameter.name).Nodup)
    (hreq : ∀ p ∈ formal, p.default = none)
    (hcover : (named.map Prod.fst).Perm (formal.map Parameter.name))
    (hperm : named.Perm named')
    (hdec : ∀ kv ∈ named, ∃ p, lookupFormal formal kv.1 = some p ∧
      (constructArg p.ty kv.2).isOk = true) :
    (Cmd.constructArgs formal named []).isOk = true
    ∧ (Cmd.constructArgs formal named' []).isOk = true
    ∧ resLookup (Cmd.constructArgs formal named []) =
        resLookup (Cmd.constructArgs formal named' []) := by
  have hnd : (named.map Prod.fst).Nodup := hcover.nodup_iff.mpr hformalnd
  have hnd' : (named'.map Prod.fst).Nodup := ((hperm.map Prod.fst).nodup_iff).mp hnd
  have hcover' : (named'.map Prod.fst).Perm (formal.map Parameter.name) :=
    ((hperm.map Prod.fst).symm).trans hcover
  have hdec' : ∀ kv ∈ named', ∃ p, lookupFormal formal kv.1 = some p ∧
      (constructArg p.ty kv.2).isOk = true :=
    fun kv hkv => hdec kv (hperm.mem_iff.mpr hkv)
  have keysdp : ∀ l : List (String × String),
      (l.map (decodedPair formal)).map Prod.fst = l.map Prod.fst := by
    intro l
    rw [List.map_map]
    rfl
  have hall : ∀ p ∈ formal, (((named.map (decodedPair formal)).lookup p.name)).isSome = true := by
    intro p hp
    apply lookup_isSome_of_mem_keys
    rw [keysdp]
    exact hcover.symm.subset (List.mem_map_of_mem Parameter.name hp)
  have hall' : ∀ p ∈ formal, (((named'.map (decodedPair formal)).lookup p.name)).isSome = true := by
    intro p hp
    apply lookup_isSome_of_mem_keys
    rw [keysdp]
    exact hcover'.symm.subset (List.mem_map_of_mem Parameter.name hp)
  have hres : Cmd.constructArgs formal named [] = .ok (named.map (decodedPair formal)) := by
    unfold Cmd.constructArgs
    rw [cmdConstructLoop_all_named formal named [] hdec (fun _ _ => rfl) hnd]
    simpa using cmdConstructLoop_nil_ok formal (named.map (decodedPair formal)) hall
  have hres' : Cmd.constructArgs formal named' [] = .ok (named'.map (decodedPair formal)) := by
    unfold Cmd.constructArgs
    rw [cmdConstructLoop_all_named formal named' [] hdec' (fun _ _ => rfl) hnd']
    simpa using cmdConstructLoop_nil_ok formal (named'.map (decodedPair formal)) hall'
  refine ⟨by rw [hres]; rfl, by rw [hres']; rfl, ?_⟩
  funext k
  unfold resLookup
  rw [hres, hres']
  exact lookup_eq_of_perm (hperm.map (decodedPair formal)) (by rw [keysdp]; exact hnd) k

/-- C6 witness: the spec's concrete instance — `"test first=first second=2"`
and `"test second=2 first=first"` on `test(first: str, second: int)` both
succeed with the identical binding `{first: "first", second: 2}`. -/
theorem C6_named_order_invariance_witness :
    ((Cmd.constructArgs testFormal [("first", "first"), ("second", "2")] []).isOk = true
      ∧ (Cmd.constructArgs testFormal [("second", "2"), ("first", "first")] []).isOk = true
      ∧ resLookup (Cmd.constructArgs testFormal [("first", "first"), ("second", "2")] []) =
          resLookup (Cmd.constructArgs testFormal [("second", "2"), ("first", "first")] []))
    ∧ Cmd.constructArgs testFormal [("first", "first"), ("second", "2")] [] =
        .ok [("first", .str "first"), ("second", .int 2)] := by
  constructor
  · apply C6_named_order_invariance testFormal
      [("first", "first"), ("second", "2")] [("second", "2"), ("first", "first")]
    · decide
    · intro p hp
      fin_cases hp <;> rfl
    · decide
    · decide
    · intro kv hkv
      fin_cases hkv
      · exact ⟨⟨"first", .str, none⟩, rfl, rfl⟩
      · exact ⟨⟨"second", .int, none⟩, rfl, rfl⟩
  · rfl

/-! ## Claim C9 -/

theorem string_eq_empty_of_toList {s : String} (h : s.toList = []) : s = "" := by
  cases s with
  | mk data =>
    cases h
    rfl

theorem commandLine_ok_parts {raw : String} {cl : CommandLine}
    (h : commandLine raw = .ok cl) :
    cl.rawText = raw ∧ splitCmdline raw true = .ok cl.quotedWords := by
  unfold commandLine at h
  cases hsc : splitCmdline raw true with
  | error e =>
    rw [hsc] at h
    exact absurd h (fun he => Except.noConfusion he)
  | ok ws =>
    rw [hsc] at h
    dsimp only at h
    cases hba : buildArgs ((ws.map dropEnclosingQuotes)).tail [] with
    | error e =>
      rw [hba] at h
      exact absurd h (fun he => Except.noConfusion he)
    | ok args =>
      rw [hba] at h
      injection h with h'
      subst h'
      exact ⟨rfl, rfl⟩

/-- The `assert len(self.quoted_words) > 0` of `has_trailing_whitespace`:
scanning a character list that still contains a non-whitespace character, or
carrying a nonempty current word or accumulator, always yields at least one
word. -/
theorem splitCmdlineAux_ok_ne_nil :
    ∀ (cs : List Char) (q : Option Char) (cur : List Char) (acc ws : List String),
      splitCmdlineAux true cs q cur acc = .ok ws →
      (cur ≠ [] ∨ acc ≠ [] ∨ ∃ c ∈ cs, ¬c.isWhitespace = true) →
      ws ≠ [] := by
  intro cs
  induction cs with
  | nil =>
    intro q cur acc ws h hside he
    subst he
    cases q with
    | none =>
      simp only [splitCmdlineAux] at h
      injection h with h'
      rcases List.append_eq_nil.mp h' with ⟨hacc, hrest⟩
      rcases hside with hcur | hacc' | ⟨c, hc, _⟩
      · rw [if_neg (by simpa [List.isEmpty_iff] using hcur)] at hrest
        exact List.noConfusion hrest
      · exact hacc' hacc
      · exact absurd hc (List.not_mem_nil c)
    | some q' =>
      simp only [splitCmdlineAux, if_pos rfl] at h
      injection h with h'
      rcases List.append_eq_nil.mp h' with ⟨_, hrest⟩
      exact List.noConfusion hrest
  | cons c cs ih =>
    intro q cur acc ws h hside
    cases q with
    | some q' =>
      simp only [splitCmdlineAux] at h
      split at h <;>
        exact ih _ _ _ _ h (Or.inl (by simp))
    | none =>
      simp only [splitCmdlineAux] at h
      split at h
      · -- whitespace: the current word (if any) is flushed into the
        -- accumulator and the side condition moves to the tail.
        rename_i hw
        refine ih _ _ _ _ h ?_
        by_cases hcur : cur = []
        · subst hcur
          rcases hside with hcur' | hacc | ⟨c', hc', hnw⟩
          · exact absurd rfl hcur'
          · right; left; simpa using hacc
          · rcases List.mem_cons.mp hc' with rfl | hmem
            · exact absurd hw hnw
            · exact Or.inr (Or.inr ⟨c', hmem, hnw⟩)
        · right; left
          rw [if_neg (by simpa [List.isEmpty_iff] using hcur)]
          simp
      · split at h <;>
          exact ih _ _ _ _ h (Or.inl (by simp))

/-- C9 counterexample: the claim states that `has_trailing_whitespace` is
true for the empty raw line; the property's first branch returns `False` on
empty raw text. -/
theorem C9_empty_line_counterexample :
    commandLine "" = .ok ⟨"", [], "", []⟩
    ∧ CommandLine.hasTrailingWhitespace ⟨"", [], "", []⟩ = false :=
  ⟨rfl, rfl⟩

/-- C9 (amended): for every constructed `CommandLine`, the
`has_trailing_whitespace` flag is true exactly when the raw text is
*nonempty* and either consists entirely of whitespace or does not end with
the last extracted raw word; in particular it is *false* (not true) for the
empty string.  The in-source assertion that a nonempty, not-all-whitespace
line produces at least one quoted word also holds. -/
theorem C9_amended_trailing_whitespace (raw : String) (cl : CommandLine)
    (h : commandLine raw = .ok cl) :
    (cl.hasTrailingWhitespace = true ↔
      raw ≠ "" ∧ (pyIsSpace raw = true ∨ pyEndswith raw (cl.quotedWords.getLastD "") = false))
    ∧ (raw ≠ "" → pyIsSpace raw = false → cl.quotedWords ≠ []) := by
  obtain ⟨hraw, hsplit⟩ := commandLine_ok_parts h
  constructor
  · unfold CommandLine.hasTrailingWhitespace
    rw [hraw]
    by_cases hemp : raw.toList.isEmpty = true
    · have hr : raw = "" := string_eq_empty_of_toList (List.isEmpty_iff.mp hemp)
      simp [hemp, hr]
    · have hne : raw ≠ "" := fun he => hemp (by rw [he]; rfl)
      have hdata : ¬raw.data = [] := fun hd =>
        hemp (by show raw.toList.isEmpty = true; rw [show raw.toList = raw.data from rfl, hd]; rfl)
      by_cases hsp : pyIsSpace raw = true
      · simp [hemp, hsp, hne, hdata]
      · simp [hemp, hsp, hne, hdata, Bool.not_eq_true']
  · intro hne hsp
    apply splitCmdlineAux_ok_ne_nil raw.toList none [] [] cl.quotedWords hsplit
    right; right
    have hnel : raw.toList ≠ [] := fun he => hne (string_eq_empty_of_toList he)
    unfold pyIsSpace at hsp
    rw [Bool.and_eq_false_iff] at hsp
    rcases hsp with hsp | hsp
    · rw [Bool.not_eq_false'] at hsp
      exact absurd (List.isEmpty_iff.mp hsp) hnel
    · simpa [List.all_eq_true] using hsp

/-- C9 witness: the amended statement at the line `"ab "`, whose trailing
space makes the flag true. -/
theorem C9_amended_trailing_whitespace_witness :
    ((CommandLine.mk "ab " ["ab"] "ab" []).hasTrailingWhitespace = true ↔
      "ab " ≠ "" ∧ (pyIsSpace "ab " = true ∨
        pyEndswith "ab " ((CommandLine.mk "ab " ["ab"] "ab" []).quotedWords.getLastD "") = false))
    ∧ ("ab " ≠ "" → pyIsSpace "ab " = false →
        (CommandLine.mk "ab " ["ab"] "ab" []).quotedWords ≠ []) :=
  C9_amended_trailing_whitespace "ab " (CommandLine.mk "ab " ["ab"] "ab" []) rfl

end Powercmd
